import Mathlib

/-!
Verification of the E&M upcoding benchmarking, adjustment and convergence
pipeline (scripts investigate_em_upcoding.py, investigate_em_adjusted.py,
investigate_em_convergence.py).

The dataframe pipeline is shallowly embedded over lists of records.
Numeric columns are modelled by rationals.  Polars group_by is modelled by
grouping on the distinct key values in order of first occurrence; inner
joins are modelled relationally.  The sample standard deviation involves a
square root, which is irrational, so the pipeline is parameterised over an
arbitrary function stdFn computing the cohort standard deviation; no
theorem below depends on the numeric value of a standard deviation, only
on the branch structure that consumes it.
-/

/-! ## Generic list combinators modelling the dataframe operations -/

/-- polars group_by(k).agg(...): one output row per distinct key value,
the aggregation applied to the rows carrying that key. -/
def groupBy {α : Type} {κ : Type} {β : Type} [DecidableEq κ]
    (k : α → κ) (agg : κ → List α → β) (l : List α) : List β :=
  ((l.map k).dedup).map (fun key => agg key (l.filter (fun r => decide (k r = key))))

/-- polars join(..., how=inner): every pair of rows whose keys agree. -/
def innerJoin {α β γ κ : Type} [DecidableEq κ]
    (ka : α → κ) (kb : β → κ) (mk : α → β → γ) (l : List α) (r : List β) : List γ :=
  (l.map (fun a => ((r.filter (fun b => decide (kb b = ka a))).map (mk a)))).flatten

/-- Insert one element into a list kept in descending key order. -/
def insertDescBy {α β : Type} [LinearOrder β] (f : α → β) (a : α) : List α → List α
  | [] => [a]
  | b :: bs => if f b ≤ f a then a :: b :: bs else b :: insertDescBy f a bs

/-- polars sort(key, descending=True), as a stable insertion sort. -/
def sortDescBy {α β : Type} [LinearOrder β] (f : α → β) (l : List α) : List α :=
  l.foldr (insertDescBy f) []

/-- Ascending insertion of a rational, used for medians and quantiles. -/
def insertAsc (a : ℚ) : List ℚ → List ℚ
  | [] => [a]
  | b :: bs => if a ≤ b then a :: b :: bs else b :: insertAsc a bs

/-- Ascending sort of a rational column. -/
def sortQ (l : List ℚ) : List ℚ := l.foldr insertAsc []

/-- polars median: middle element for odd length, mean of the two middle
elements for even length (0 for an empty column, which never occurs since
every group is nonempty). -/
def medianQ (l : List ℚ) : ℚ :=
  let s := sortQ l
  let n := s.length
  if n = 0 then 0
  else if n % 2 = 1 then s.getD (n / 2) 0
  else (s.getD (n / 2 - 1) 0 + s.getD (n / 2) 0) / 2

/-- polars quantile(0.95) with the default nearest interpolation: the
sorted element whose index is 0.95*(n-1) rounded to nearest. -/
def quantile95 (l : List ℚ) : ℚ :=
  let s := sortQ l
  let n := s.length
  if n = 0 then 0 else s.getD ((19 * (n - 1) + 10) / 20) 0

/-- polars max over a nonempty group (0 for an empty column, which never
occurs since every group is nonempty). -/
def maxQ : List ℚ → ℚ
  | [] => 0
  | x :: xs => xs.foldl max x

/-! ## Constants of investigate_em_upcoding.py -/

/-- MIN_CLAIMS = 500: minimum claims per provider per era per code family. -/
def MIN_CLAIMS : ℚ := 500

/-- MIN_PEERS = 20: minimum peer providers for a valid benchmark. -/
def MIN_PEERS : Nat := 20

/-- Z_THRESHOLD = 2.5: z-score threshold for the outlier flag. -/
def Z_THRESHOLD : ℚ := 5 / 2

/-- MIN_ABS_DEV = 5.0: dollars-per-encounter deviation floor. -/
def MIN_ABS_DEV : ℚ := 5

/-! ## analyze_code_family: the raw benchmarking stage

The embedding starts from the provider_codes table (the group_by of the
family claims on provider identity columns and HCPCS code, step 2 of
analyze_code_family); the claims under verification only concern the
stages from there on. -/

/-- One row of provider_codes: BILLING_PROVIDER_NPI_NUM, PROVIDER_NAME,
STATE, BENCHMARK_SPECIALTY, Classification, PROVIDER_TYPE, HCPCS_CODE
with the summed CODE_CLAIMS, CODE_PAID, CODE_BENE. -/
structure CodeRow where
  npi : String
  pname : String
  state : String
  specialty : String
  classif : String
  ptype : String
  code : String
  codeClaims : ℚ
  codePaid : ℚ
  codeBene : ℚ
  deriving DecidableEq

/-- One row of provider_totals. -/
structure ProviderTotals where
  npi : String
  totalEmClaims : ℚ
  totalPaid : ℚ
  totalBeneSum : ℚ
  deriving DecidableEq

/-- provider_totals: per-NPI sums, filtered to TOTAL_EM_CLAIMS >= MIN_CLAIMS. -/
def provider_totals (rows : List CodeRow) : List ProviderTotals :=
  (groupBy (fun r => r.npi)
      (fun key g =>
        { npi := key
          totalEmClaims := (g.map (fun r => r.codeClaims)).sum
          totalPaid := (g.map (fun r => r.codePaid)).sum
          totalBeneSum := (g.map (fun r => r.codeBene)).sum })
      rows).filter (fun t => decide (MIN_CLAIMS ≤ t.totalEmClaims))

/-- The nine group-by keys of step 3 of analyze_code_family. -/
structure PWIKey where
  npi : String
  pname : String
  state : String
  specialty : String
  classif : String
  ptype : String
  totalEmClaims : ℚ
  totalPaid : ℚ
  totalBeneSum : ℚ
  deriving DecidableEq

/-- One row of provider_pwi: the keys plus PRICE_WEIGHTED_INDEX and
BENE_CLAIM_RATIO (field beneClaimRate). -/
structure PWIRow extends PWIKey where
  pwi : ℚ
  beneClaimRate : ℚ
  deriving DecidableEq

/-- Left join against the national price table (one row per HCPCS code,
as produced by compute_national_prices): a missing code gives a null. -/
def lookupPrice (prices : List (String × ℚ)) (code : String) : Option ℚ :=
  (prices.find? (fun p => decide (p.fst = code))).map (fun p => p.snd)

/-- The group-by key of a provider_codes x provider_totals row. -/
def pwiKeyOf (rt : CodeRow × ProviderTotals) : PWIKey :=
  { npi := rt.1.npi, pname := rt.1.pname, state := rt.1.state,
    specialty := rt.1.specialty, classif := rt.1.classif, ptype := rt.1.ptype,
    totalEmClaims := rt.2.totalEmClaims, totalPaid := rt.2.totalPaid,
    totalBeneSum := rt.2.totalBeneSum }

/-- provider_pwi: join provider_codes with provider_totals (inner, on NPI)
and the national prices (left, on code), sum the weighted prices per
provider (polars sum skips the nulls of the left join) and divide by the
claim total.  PWI = sum(code_claims * national_price) / total_claims. -/
def provider_pwi (prices : List (String × ℚ)) (rows : List CodeRow) : List PWIRow :=
  let joined := innerJoin (fun r => r.npi) (fun t => t.npi) (fun r t => (r, t))
    rows (provider_totals rows)
  groupBy pwiKeyOf
    (fun key g =>
      let totalWeighted :=
        (g.filterMap (fun rt => (lookupPrice prices rt.1.code).map
          (fun p => rt.1.codeClaims * p))).sum
      { toPWIKey := key
        pwi := totalWeighted / key.totalEmClaims
        beneClaimRate := key.totalBeneSum / key.totalEmClaims })
    joined

/-- One row of specialty_stats: MEDIAN_PWI, STD_PWI, P95_PWI, PEER_COUNT. -/
structure SpecStats where
  specialty : String
  medianPwi : ℚ
  stdPwi : ℚ
  p95Pwi : ℚ
  peerCount : Nat
  deriving DecidableEq

/-- specialty_stats: per-specialty benchmark, filtered to
PEER_COUNT >= MIN_PEERS.  stdFn abstracts the sample standard deviation. -/
def specialty_stats (stdFn : List ℚ → ℚ) (ppwi : List PWIRow) : List SpecStats :=
  (groupBy (fun p => p.specialty)
      (fun key g =>
        { specialty := key
          medianPwi := medianQ (g.map (fun p => p.pwi))
          stdPwi := stdFn (g.map (fun p => p.pwi))
          p95Pwi := quantile95 (g.map (fun p => p.pwi))
          peerCount := g.length })
      ppwi).filter (fun s => decide (MIN_PEERS ≤ s.peerCount))

/-- One row of the per-family result table written by analyze_code_family. -/
structure ResultRow where
  npi : String
  pname : String
  state : String
  specialty : String
  classif : String
  ptype : String
  codeFamily : String
  era : String
  totalEmClaims : ℚ
  totalPaid : ℚ
  pwi : ℚ
  medianPwi : ℚ
  p95Pwi : ℚ
  stdPwi : ℚ
  zScore : ℚ
  absDeviation : ℚ
  estExcessRevenue : ℚ
  estExcessRevenueClipped : ℚ
  beneClaimRate : ℚ
  peerCount : Nat
  isOutlier : Bool
  aboveP95 : Bool
  deriving DecidableEq

/-- Step 5 of analyze_code_family, one joined row: z-score with the
STD=0 guard, signed absolute deviation, unclipped and clipped excess
revenue, the outlier flag (Z >= threshold AND deviation >= minimum) and
the ABOVE_P95 flag. -/
def mkResult (family era : String) (p : PWIRow) (s : SpecStats) : ResultRow :=
  let z : ℚ := if 0 < s.stdPwi then (p.pwi - s.medianPwi) / s.stdPwi else 0
  let dev : ℚ := p.pwi - s.medianPwi
  let exc : ℚ := dev * p.totalEmClaims
  { npi := p.npi, pname := p.pname, state := p.state, specialty := p.specialty,
    classif := p.classif, ptype := p.ptype, codeFamily := family, era := era,
    totalEmClaims := p.totalEmClaims, totalPaid := p.totalPaid,
    pwi := p.pwi, medianPwi := s.medianPwi, p95Pwi := s.p95Pwi, stdPwi := s.stdPwi,
    zScore := z, absDeviation := dev,
    estExcessRevenue := exc,
    estExcessRevenueClipped := max exc 0,
    beneClaimRate := p.beneClaimRate,
    peerCount := s.peerCount,
    isOutlier := decide (Z_THRESHOLD ≤ z) && decide (MIN_ABS_DEV ≤ dev),
    aboveP95 := decide (s.p95Pwi < p.pwi) }

/-- analyze_code_family from the provider_codes table on: compute
provider_pwi, the specialty benchmarks, join them (inner, so providers of
unbenchmarked specialties drop out), derive the outlier columns and sort
by EST_EXCESS_REVENUE descending. -/
def analyze_code_family (stdFn : List ℚ → ℚ) (prices : List (String × ℚ))
    (family era : String) (rows : List CodeRow) : List ResultRow :=
  let ppwi := provider_pwi prices rows
  sortDescBy (fun r => r.estExcessRevenue)
    (innerJoin (fun p => p.specialty) (fun s => s.specialty) (mkResult family era)
      ppwi (specialty_stats stdFn ppwi))

/-! ## fit_and_residualize: the covariate-adjusted stage
(investigate_em_adjusted.py)

The OLS fit itself (numpy normal equations with the 1e-8 ridge term) is
external dense linear algebra; its output re-enters the dataframe pipeline
as the positionally attached ADJ_RESIDUAL series (source line
df.with_columns(pl.Series("ADJ_RESIDUAL", residuals))).  The embedding
therefore takes the residual column as an input list zipped with the base
provider rows, and models everything from that line on. -/

/-- One row of spec_resid_stats: SPEC_RESID_MEDIAN, SPEC_RESID_STD, SPEC_N. -/
structure ResidStats where
  specialty : String
  residMedian : ℚ
  residStd : ℚ
  n : Nat
  deriving DecidableEq

/-- spec_resid_stats: per-specialty median and std of the residuals,
filtered to SPEC_N >= MIN_PEERS (the same floor as the raw stage). -/
def spec_resid_stats (stdFn : List ℚ → ℚ) (dfr : List (ResultRow × ℚ)) : List ResidStats :=
  (groupBy (fun x => x.1.specialty)
      (fun key g =>
        { specialty := key
          residMedian := medianQ (g.map (fun x => x.2))
          residStd := stdFn (g.map (fun x => x.2))
          n := g.length })
      dfr).filter (fun s => decide (MIN_PEERS ≤ s.n))

/-- The MOVEMENT when/then chain crossing the raw and adjusted flags. -/
def movementOf (raw adj : Bool) : String :=
  if raw && adj then "PERSISTENT"
  else if raw && !adj then "EXPLAINED"
  else if !raw && adj then "UNMASKED"
  else "NORMAL"

/-- One output row of fit_and_residualize: the base columns plus
ADJ_RESIDUAL, ADJ_Z_SCORE, ADJ_IS_OUTLIER, MOVEMENT (the joined stats
columns are dropped by the source and so not kept here). -/
structure AdjRow where
  base : ResultRow
  adjResidual : ℚ
  adjZScore : ℚ
  adjIsOutlier : Bool
  movement : String
  deriving DecidableEq

/-- One joined row of the adjusted stage: residual z-score with the
SPEC_RESID_STD > 0 guard, the adjusted flag ADJ_Z_SCORE >= 2.5 (no
absolute-deviation gate), and the movement category. -/
def mkAdj (pr : ResultRow × ℚ) (st : ResidStats) : AdjRow :=
  let z : ℚ := if 0 < st.residStd then (pr.2 - st.residMedian) / st.residStd else 0
  let adj : Bool := decide (Z_THRESHOLD ≤ z)
  { base := pr.1, adjResidual := pr.2, adjZScore := z, adjIsOutlier := adj,
    movement := movementOf pr.1.isOutlier adj }

/-- fit_and_residualize from the residual attachment on: zip the base
rows with the residual series, benchmark the residuals within specialty
and join back (inner, dropping specialties under the peer floor). -/
def fit_and_residualize (stdFn : List ℚ → ℚ) (providers : List ResultRow)
    (residuals : List ℚ) : List AdjRow :=
  let dfr := providers.zip residuals
  innerJoin (fun x => x.1.specialty) (fun s => s.specialty) mkAdj
    dfr (spec_resid_stats stdFn dfr)

/-! ## cross_era_summary (investigate_em_upcoding.py) -/

/-- One row of the per-era aggregation in cross_era_summary: the group
keys NPI, PROVIDER_NAME, STATE, BENCHMARK_SPECIALTY with max Z_SCORE,
summed clipped excess and summed claims over the era's outlier rows. -/
structure EraAgg where
  npi : String
  pname : String
  state : String
  specialty : String
  z : ℚ
  excess : ℚ
  claims : ℚ
  deriving DecidableEq

/-- The four group-by keys of era_agg. -/
def eraKeyOf (r : ResultRow) : String × String × String × String :=
  (r.npi, r.pname, r.state, r.specialty)

/-- era_agg: filter to IS_OUTLIER, group on provider identity, take
max(Z_SCORE), sum(EST_EXCESS_REVENUE_CLIPPED), sum(TOTAL_EM_CLAIMS). -/
def era_agg (df : List ResultRow) : List EraAgg :=
  groupBy eraKeyOf
    (fun key g =>
      { npi := key.1, pname := key.2.1, state := key.2.2.1, specialty := key.2.2.2,
        z := maxQ (g.map (fun r => r.zScore)),
        excess := (g.map (fun r => r.estExcessRevenueClipped)).sum,
        claims := (g.map (fun r => r.totalEmClaims)).sum })
    (df.filter (fun r => r.isOutlier))

/-- One row of em_upcoding_cross_era_summary.csv. -/
structure CrossEraRow where
  npi : String
  pname : String
  state : String
  specialty : String
  preZ : ℚ
  preExcess : ℚ
  preClaims : ℚ
  postZ : ℚ
  postExcess : ℚ
  postClaims : ℚ
  deriving DecidableEq

/-- Merge of a pre-era aggregate with a post-era aggregate (the summary
join keeps the identity columns of the pre side and selects only the
metric columns of the post side). -/
def mkCross (a b : EraAgg) : CrossEraRow :=
  { npi := a.npi, pname := a.pname, state := a.state, specialty := a.specialty,
    preZ := a.z, preExcess := a.excess, preClaims := a.claims,
    postZ := b.z, postExcess := b.excess, postClaims := b.claims }

/-- cross_era_summary: inner join of the two era aggregates on NPI,
sorted by POST2021_EXCESS descending.  (The source's early return when no
NPI is flagged in both eras writes an empty table, which coincides with
this join being empty.) -/
def cross_era_summary (pre post : List ResultRow) : List CrossEraRow :=
  sortDescBy (fun r => r.postExcess)
    (innerJoin (fun a => a.npi) (fun b => b.npi) mkCross (era_agg pre) (era_agg post))

/-- Hypothesis that the provider registry columns are consistent per NPI
within an era table (one NPI never carries two different names, states or
benchmark specialties), as holds when the NPI registry is keyed by NPI. -/
def AttrConsistent (df : List ResultRow) : Prop :=
  ∀ r ∈ df, ∀ s ∈ df, r.npi = s.npi →
    r.pname = s.pname ∧ r.state = s.state ∧ r.specialty = s.specialty

instance (df : List ResultRow) : Decidable (AttrConsistent df) := by
  unfold AttrConsistent; infer_instance

/-! ## Convergence scorer (investigate_em_convergence.py)

The embedding starts from the base outlier table (one row per unique
outlier NPI with its best-era columns) and the seven signal NPI sets; the
claims under verification concern the signal columns, the derived counts
and the final sort. -/

/-- One row of the base outlier set of the convergence script. -/
structure ConvBase where
  npi : String
  pname : String
  state : String
  specialty : String
  ptype : String
  codeFamily : String
  totalEmClaims : ℚ
  zScore : ℚ
  excessClipped : ℚ
  beneClaimRate : ℚ
  primaryEra : String
  deriving DecidableEq

/-- The seven signal NPI sets joined by the convergence script. -/
structure SignalSets where
  specialtyOutliers : List String
  temporalSpikes : List String
  ghostImpossible : List String
  oigMatches : List String
  temporalDisappear : List String
  temporalFastStart : List String
  crossEra : List String
  deriving DecidableEq

/-- One row of em_upcoding_convergence.csv. -/
structure ConvRow where
  base : ConvBase
  sigSpecialtyOutlier : Bool
  sigTemporalSpike : Bool
  sigGhostProvider : Bool
  sigOigExcluded : Bool
  sigTemporalDisappearance : Bool
  sigFastStarter : Bool
  sigCrossEra : Bool
  billingAnomalyCount : ℤ
  fraudInfraCount : ℤ
  regulatoryCount : ℤ
  temporalCount : ℤ
  signalTypeCount : ℤ
  totalSignalCount : ℤ
  deriving DecidableEq

/-- Cast of a signal boolean to its Int8 contribution. -/
def b2i (b : Bool) : ℤ := if b then 1 else 0

/-- add_signal columns (is_in membership tests) plus the derived category
counts, SIGNAL_TYPE_COUNT (number of categories with count > 0) and
TOTAL_SIGNAL_COUNT (sum over all seven signal booleans). -/
def mkConv (s : SignalSets) (r : ConvBase) : ConvRow :=
  let s1 : Bool := decide (r.npi ∈ s.specialtyOutliers)
  let s2 : Bool := decide (r.npi ∈ s.temporalSpikes)
  let s3 : Bool := decide (r.npi ∈ s.ghostImpossible)
  let s4 : Bool := decide (r.npi ∈ s.oigMatches)
  let s5 : Bool := decide (r.npi ∈ s.temporalDisappear)
  let s6 : Bool := decide (r.npi ∈ s.temporalFastStart)
  let s7 : Bool := decide (r.npi ∈ s.crossEra)
  let billing := b2i s1 + b2i s2
  let fraud := b2i s3
  let reg := b2i s4
  let temporal := b2i s5 + b2i s6
  { base := r,
    sigSpecialtyOutlier := s1, sigTemporalSpike := s2, sigGhostProvider := s3,
    sigOigExcluded := s4, sigTemporalDisappearance := s5, sigFastStarter := s6,
    sigCrossEra := s7,
    billingAnomalyCount := billing, fraudInfraCount := fraud,
    regulatoryCount := reg, temporalCount := temporal,
    signalTypeCount :=
      (if 0 < billing then 1 else 0) + (if 0 < fraud then 1 else 0) +
      (if 0 < reg then 1 else 0) + (if 0 < temporal then 1 else 0),
    totalSignalCount := b2i s1 + b2i s2 + b2i s3 + b2i s4 + b2i s5 + b2i s6 + b2i s7 }

/-- The convergence table: signal columns and counts for every base row,
then conv.sort("TOTAL_SIGNAL_COUNT", descending=True) — the source sorts
on this single key only. -/
def convergence (s : SignalSets) (base : List ConvBase) : List ConvRow :=
  sortDescBy (fun c => c.totalSignalCount) (base.map (mkConv s))

/-- True when at least one of the seven signal booleans of a row is set. -/
def anySignal (c : ConvRow) : Bool :=
  c.sigSpecialtyOutlier || c.sigTemporalSpike || c.sigGhostProvider ||
  c.sigOigExcluded || c.sigTemporalDisappearance || c.sigFastStarter || c.sigCrossEra

/-- Category weight of a row under the spec's claimed precedence
regulatory > infrastructure > billing-anomaly > temporal. -/
def categoryPrecedence (c : ConvRow) : ℤ :=
  if 0 < c.regulatoryCount then 4
  else if 0 < c.fraudInfraCount then 3
  else if 0 < c.billingAnomalyCount then 2
  else if 0 < c.temporalCount then 1
  else 0

/-- Modelled from the spec: the ranking the claim asserts — descending by
TOTAL_SIGNAL_COUNT with ties broken by the category-weighted precedence.
This definition follows the spec's words (the source has no such
tie-break) in order to compare the claimed ordering with the code's. -/
def rankedWithCategoryTieBreak (l : List ConvRow) : Prop :=
  List.Pairwise (fun a b =>
    b.totalSignalCount < a.totalSignalCount ∨
    (a.totalSignalCount = b.totalSignalCount ∧
      categoryPrecedence b ≤ categoryPrecedence a)) l

instance (l : List ConvRow) : Decidable (rankedWithCategoryTieBreak l) := by
  unfold rankedWithCategoryTieBreak; infer_instance

/-! ## Float-valued model of the adjusted stage (for the finiteness claim)

Residuals come out of IEEE-754 linear algebra, so they can be non-finite.
This second, clearly named model of fit_and_residualize represents a
float as Option ℚ with none standing for a non-finite value (NaN or
infinity): arithmetic propagates none, ordered comparisons against a
non-finite value are false (IEEE semantics for NaN), and a column
aggregate over a group containing a non-finite value is non-finite.  The
exact-arithmetic model above and this model embed the same source
function at two fidelities. -/

/-- Float subtraction: non-finite operands give a non-finite result. -/
def oSub : Option ℚ → Option ℚ → Option ℚ
  | some a, some b => some (a - b)
  | _, _ => none

/-- Float division: non-finite operands give a non-finite result. -/
def oDiv : Option ℚ → Option ℚ → Option ℚ
  | some a, some b => some (a / b)
  | _, _ => none

/-- The comparison value > 0; false on a non-finite value (NaN compares
false). -/
def oPos : Option ℚ → Bool
  | some a => decide (0 < a)
  | none => false

/-- The comparison value >= c; false on a non-finite value. -/
def oGe (o : Option ℚ) (c : ℚ) : Bool :=
  match o with
  | some a => decide (c ≤ a)
  | none => false

/-- Float median of a group: non-finite as soon as the group holds a
non-finite value. -/
def medianO (l : List (Option ℚ)) : Option ℚ :=
  if l.all (fun o => o.isSome) then some (medianQ (l.filterMap id)) else none

/-- Float standard deviation of a group: non-finite as soon as the group
holds a non-finite value, otherwise stdFn of the finite values. -/
def stdO (stdFn : List ℚ → ℚ) (l : List (Option ℚ)) : Option ℚ :=
  if l.all (fun o => o.isSome) then some (stdFn (l.filterMap id)) else none

/-- spec_resid_stats in the float model. -/
structure FResidStats where
  specialty : String
  residMedian : Option ℚ
  residStd : Option ℚ
  n : Nat
  deriving DecidableEq

/-- spec_resid_stats over float-valued residuals.  The SPEC_N >= MIN_PEERS
filter counts rows and is indifferent to finiteness. -/
def fspec_resid_stats (stdFn : List ℚ → ℚ) (dfr : List (ResultRow × Option ℚ)) :
    List FResidStats :=
  (groupBy (fun x => x.1.specialty)
      (fun key g =>
        { specialty := key
          residMedian := medianO (g.map (fun x => x.2))
          residStd := stdO stdFn (g.map (fun x => x.2))
          n := g.length })
      dfr).filter (fun s => decide (MIN_PEERS ≤ s.n))

/-- An output row of the adjusted stage in the float model; ADJ_RESIDUAL
is among the columns written to em_upcoding_adjusted_{era}.csv. -/
structure FAdjRow where
  base : ResultRow
  adjResidual : Option ℚ
  adjZScore : Option ℚ
  adjIsOutlier : Bool
  movement : String
  deriving DecidableEq

/-- One joined row of the adjusted stage in the float model. -/
def fmkAdj (pr : ResultRow × Option ℚ) (st : FResidStats) : FAdjRow :=
  let z : Option ℚ := if oPos st.residStd then oDiv (oSub pr.2 st.residMedian) st.residStd
    else some 0
  let adj : Bool := oGe z Z_THRESHOLD
  { base := pr.1, adjResidual := pr.2, adjZScore := z, adjIsOutlier := adj,
    movement := movementOf pr.1.isOutlier adj }

/-- fit_and_residualize in the float model.  Neither this function nor
the write step in main applies any finiteness check to the residuals
before the rows are written. -/
def fit_and_residualize_float (stdFn : List ℚ → ℚ) (providers : List ResultRow)
    (residuals : List (Option ℚ)) : List FAdjRow :=
  let dfr := providers.zip residuals
  innerJoin (fun x => x.1.specialty) (fun s => s.specialty) fmkAdj
    dfr (fspec_resid_stats stdFn dfr)

/-! ## Concrete evaluation inputs

Small closed inputs on which the pipeline is evaluated in the witness and
counterexample theorems below. -/

/-- A constant stand-in instantiating the abstract standard deviation. -/
def std1 : List ℚ → ℚ := fun _ => 1

/-- The degenerate standard deviation (every cohort has zero dispersion). -/
def std0 : List ℚ → ℚ := fun _ => 0

/-- Two-code national price table: code A at 0, code B at 100 dollars. -/
def cPrices : List (String × ℚ) := [("A", 0), ("B", 100)]

/-- One provider_codes row with 500 claims on a single code. -/
def mkCodeRow (npiStr codeStr : String) : CodeRow :=
  { npi := npiStr, pname := "n", state := "s", specialty := "S", classif := "c",
    ptype := "t", code := codeStr, codeClaims := 500, codePaid := 1, codeBene := 1 }

/-- Twenty providers of one specialty: nineteen billing only code A and
one (NPI Q) billing only code B. -/
def cRows : List CodeRow :=
  ((List.range 19).map (fun i => mkCodeRow (String.append "P" (toString i)) "A")) ++
    [mkCodeRow "Q" "B"]

/-- Placeholder row used only as a getD default. -/
def dummyResult : ResultRow :=
  { npi := "", pname := "", state := "", specialty := "", classif := "", ptype := "",
    codeFamily := "", era := "", totalEmClaims := 0, totalPaid := 0, pwi := 0,
    medianPwi := 0, p95Pwi := 0, stdPwi := 0, zScore := 0, absDeviation := 0,
    estExcessRevenue := 0, estExcessRevenueClipped := 0, beneClaimRate := 0,
    peerCount := 0, isOutlier := false, aboveP95 := false }

/-- The raw-stage output on the concrete input with unit dispersion. -/
def cResult : List ResultRow := analyze_code_family std1 cPrices "est" "post2021" cRows

/-- The flagged row of cResult (provider Q). -/
def cOutlier : ResultRow := (cResult.filter (fun r => r.isOutlier)).headD dummyResult

/-- The raw-stage output with the degenerate dispersion function. -/
def cResultZ : List ResultRow := analyze_code_family std0 cPrices "est" "post2021" cRows

/-- The first row of cResultZ. -/
def cZeroRow : ResultRow := cResultZ.headD dummyResult

/-- Placeholder benchmark row used only as a getD default. -/
def dummyStats : SpecStats :=
  { specialty := "", medianPwi := 0, stdPwi := 0, p95Pwi := 0, peerCount := 0 }

/-- The benchmark row of the concrete input's single specialty. -/
def cStats : SpecStats :=
  (specialty_stats std1 (provider_pwi cPrices cRows)).headD dummyStats

/-- One base provider row for the adjusted stage and the reconciler. -/
def mkBaseRow (npiStr : String) (out : Bool) : ResultRow :=
  { dummyResult with
    npi := npiStr
    specialty := "S"
    totalEmClaims := 500
    peerCount := 20
    isOutlier := out }

/-- Twenty base rows of one specialty; only NPI BQ carries the raw flag. -/
def cProviders : List ResultRow :=
  ((List.range 19).map (fun i => mkBaseRow (String.append "B" (toString i)) false)) ++
    [mkBaseRow "BQ" true]

/-- Residuals: nineteen zeros and one large residual for NPI BQ. -/
def cResiduals : List ℚ := (List.range 19).map (fun _ => 0) ++ [100]

/-- The adjusted-stage output on the concrete input. -/
def cAdjusted : List AdjRow := fit_and_residualize std1 cProviders cResiduals

/-- Placeholder adjusted row used only as a getD default. -/
def dummyAdj : AdjRow :=
  { base := dummyResult, adjResidual := 0, adjZScore := 0, adjIsOutlier := false,
    movement := "" }

/-- The PERSISTENT row of the concrete adjusted output (NPI BQ). -/
def cPersistent : AdjRow :=
  (cAdjusted.filter (fun a => decide (a.movement = "PERSISTENT"))).headD dummyAdj

/-- A one-row era table whose single provider X is flagged. -/
def cPre : List ResultRow := [mkBaseRow "X" true]

/-- The other era, also flagging provider X. -/
def cPost : List ResultRow := [mkBaseRow "X" true]

/-- One base row of the convergence input. -/
def mkConvBase (npiStr : String) : ConvBase :=
  { npi := npiStr, pname := "n", state := "s", specialty := "S", ptype := "t",
    codeFamily := "est", totalEmClaims := 500, zScore := 3, excessClipped := 1000,
    beneClaimRate := 1, primaryEra := "post2021" }

/-- Signal sets: NPI T carries one temporal signal, NPI R one regulatory
signal, nothing else. -/
def cSignals : SignalSets :=
  { specialtyOutliers := [], temporalSpikes := [], ghostImpossible := [],
    oigMatches := ["R"], temporalDisappear := ["T"], temporalFastStart := [],
    crossEra := [] }

/-- Convergence input: the temporal-signal provider before the
regulatory-signal provider. -/
def cConvInput : List ConvBase := [mkConvBase "T", mkConvBase "R"]

/-- Placeholder convergence row used only as a getD default. -/
def dummyConv : ConvRow :=
  { base := mkConvBase "", sigSpecialtyOutlier := false, sigTemporalSpike := false,
    sigGhostProvider := false, sigOigExcluded := false,
    sigTemporalDisappearance := false, sigFastStarter := false, sigCrossEra := false,
    billingAnomalyCount := 0, fraudInfraCount := 0, regulatoryCount := 0,
    temporalCount := 0, signalTypeCount := 0, totalSignalCount := 0 }

/-- The first row of the concrete convergence output. -/
def cConvRow : ConvRow := (convergence cSignals cConvInput).headD dummyConv

/-- Float-model residuals: nineteen finite zeros and one non-finite value
for NPI BQ. -/
def cFResiduals : List (Option ℚ) := (List.range 19).map (fun _ => some 0) ++ [none]

/-! ## Lemmas about the combinators -/

theorem mem_innerJoin {α β γ κ : Type} [DecidableEq κ]
    {ka : α → κ} {kb : β → κ} {mk : α → β → γ} {l : List α} {r : List β} {c : γ} :
    c ∈ innerJoin ka kb mk l r ↔
      ∃ a, a ∈ l ∧ ∃ b, b ∈ r ∧ kb b = ka a ∧ c = mk a b := by
  unfold innerJoin
  constructor
  · intro hc
    rcases List.mem_flatten.mp hc with ⟨L, hL, hcL⟩
    rcases List.mem_map.mp hL with ⟨a, ha, rfl⟩
    rcases List.mem_map.mp hcL with ⟨b, hb, rfl⟩
    rcases List.mem_filter.mp hb with ⟨hbr, hk⟩
    exact ⟨a, ha, b, hbr, of_decide_eq_true hk, rfl⟩
  · rintro ⟨a, ha, b, hb, hk, rfl⟩
    refine List.mem_flatten.mpr ⟨_, List.mem_map.mpr ⟨a, ha, rfl⟩, ?_⟩
    exact List.mem_map.mpr ⟨b, List.mem_filter.mpr ⟨hb, decide_eq_true hk⟩, rfl⟩

theorem innerJoin_mem_of {α β γ κ : Type} [DecidableEq κ]
    {ka : α → κ} {kb : β → κ} {mk : α → β → γ} {l : List α} {r : List β}
    {a : α} {b : β} (ha : a ∈ l) (hb : b ∈ r) (hk : kb b = ka a) :
    mk a b ∈ innerJoin ka kb mk l r :=
  mem_innerJoin.mpr ⟨a, ha, b, hb, hk, rfl⟩

theorem mem_groupBy {α κ β : Type} [DecidableEq κ]
    {k : α → κ} {agg : κ → List α → β} {l : List α} {b : β} :
    b ∈ groupBy k agg l ↔
      ∃ key, key ∈ (l.map k).dedup ∧
        b = agg key (l.filter (fun r => decide (k r = key))) := by
  simp only [groupBy, List.mem_map]
  constructor
  · rintro ⟨key, hkey, rfl⟩; exact ⟨key, hkey, rfl⟩
  · rintro ⟨key, hkey, rfl⟩; exact ⟨key, hkey, rfl⟩

theorem mem_keys_iff {α κ : Type} [DecidableEq κ] {k : α → κ} {l : List α} {key : κ} :
    key ∈ (l.map k).dedup ↔ ∃ r, r ∈ l ∧ k r = key := by
  simp [List.mem_dedup]

theorem filterCongr {α : Type} {p q : α → Bool} :
    ∀ {l : List α}, (∀ x ∈ l, p x = q x) → l.filter p = l.filter q
  | [], _ => rfl
  | a :: t, h => by
    have ht : t.filter p = t.filter q :=
      filterCongr (fun x hx => h x (List.mem_cons_of_mem a hx))
    simp only [List.filter_cons, h a (List.mem_cons_self a t), ht]

/-! ## Lemmas about the sort -/

theorem insertDescBy_perm {α β : Type} [LinearOrder β] (f : α → β) (a : α) :
    ∀ l : List α, List.Perm (insertDescBy f a l) (a :: l)
  | [] => List.Perm.refl _
  | b :: bs => by
    unfold insertDescBy
    split
    · exact List.Perm.refl _
    · exact ((insertDescBy_perm f a bs).cons b).trans (List.Perm.swap a b bs)

theorem sortDescBy_perm {α β : Type} [LinearOrder β] (f : α → β) :
    ∀ l : List α, List.Perm (sortDescBy f l) l
  | [] => List.Perm.refl _
  | a :: t =>
    (insertDescBy_perm f a (sortDescBy f t)).trans ((sortDescBy_perm f t).cons a)

theorem mem_sortDescBy {α β : Type} [LinearOrder β] {f : α → β} {l : List α} {x : α} :
    x ∈ sortDescBy f l ↔ x ∈ l :=
  (sortDescBy_perm f l).mem_iff

theorem sorted_insertDescBy {α β : Type} [LinearOrder β] (f : α → β) (a : α) :
    ∀ {l : List α}, List.Sorted (fun x y => f y ≤ f x) l →
      List.Sorted (fun x y => f y ≤ f x) (insertDescBy f a l)
  | [], _ => List.sorted_singleton a
  | b :: bs, h => by
    rw [List.sorted_cons] at h
    unfold insertDescBy
    split
    · rename_i hba
      rw [List.sorted_cons]
      refine ⟨?_, List.sorted_cons.mpr h⟩
      intro y hy
      rcases List.mem_cons.mp hy with rfl | hy
      · exact hba
      · exact le_trans (h.1 y hy) hba
    · rename_i hba
      rw [List.sorted_cons]
      refine ⟨?_, sorted_insertDescBy f a h.2⟩
      intro y hy
      rcases List.mem_cons.mp ((insertDescBy_perm f a bs).mem_iff.mp hy) with rfl | hy
      · exact le_of_lt (lt_of_not_le hba)
      · exact h.1 y hy

theorem sorted_sortDescBy {α β : Type} [LinearOrder β] (f : α → β) :
    ∀ l : List α, List.Sorted (fun x y => f y ≤ f x) (sortDescBy f l)
  | [] => List.sorted_nil
  | a :: t => sorted_insertDescBy f a (sorted_sortDescBy f t)

/-! ## Characterizations of the pipeline stages -/

theorem specialty_stats_char {stdFn : List ℚ → ℚ} {ppwi : List PWIRow} {st : SpecStats}
    (hst : st ∈ specialty_stats stdFn ppwi) :
    MIN_PEERS ≤ st.peerCount ∧
    st.medianPwi = medianQ ((ppwi.filter
      (fun p => decide (p.specialty = st.specialty))).map (fun p => p.pwi)) ∧
    st.stdPwi = stdFn ((ppwi.filter
      (fun p => decide (p.specialty = st.specialty))).map (fun p => p.pwi)) ∧
    st.p95Pwi = quantile95 ((ppwi.filter
      (fun p => decide (p.specialty = st.specialty))).map (fun p => p.pwi)) ∧
    st.peerCount = (ppwi.filter
      (fun p => decide (p.specialty = st.specialty))).length := by
  unfold specialty_stats at hst
  rcases List.mem_filter.mp hst with ⟨hmem, hpeers⟩
  rcases mem_groupBy.mp hmem with ⟨key, hkey, rfl⟩
  exact ⟨of_decide_eq_true hpeers, rfl, rfl, rfl, rfl⟩

theorem spec_resid_stats_char {stdFn : List ℚ → ℚ} {dfr : List (ResultRow × ℚ)}
    {st : ResidStats} (hst : st ∈ spec_resid_stats stdFn dfr) :
    MIN_PEERS ≤ st.n ∧
    st.residMedian = medianQ ((dfr.filter
      (fun x => decide (x.1.specialty = st.specialty))).map (fun x => x.2)) ∧
    st.residStd = stdFn ((dfr.filter
      (fun x => decide (x.1.specialty = st.specialty))).map (fun x => x.2)) ∧
    st.n = (dfr.filter (fun x => decide (x.1.specialty = st.specialty))).length := by
  unfold spec_resid_stats at hst
  rcases List.mem_filter.mp hst with ⟨hmem, hn⟩
  rcases mem_groupBy.mp hmem with ⟨key, hkey, rfl⟩
  exact ⟨of_decide_eq_true hn, rfl, rfl, rfl⟩

theorem provider_pwi_min_claims {prices : List (String × ℚ)} {rows : List CodeRow}
    {p : PWIRow} (hp : p ∈ provider_pwi prices rows) : MIN_CLAIMS ≤ p.totalEmClaims := by
  unfold provider_pwi at hp
  rcases mem_groupBy.mp hp with ⟨key, hkey, rfl⟩
  rcases mem_keys_iff.mp hkey with ⟨rt, hrt, rfl⟩
  rcases mem_innerJoin.mp hrt with ⟨r, hr, t, ht, hk, rfl⟩
  rcases List.mem_filter.mp ht with ⟨htg, hmin⟩
  exact of_decide_eq_true hmin

theorem mem_analyze {stdFn : List ℚ → ℚ} {prices : List (String × ℚ)}
    {family era : String} {rows : List CodeRow} {r : ResultRow}
    (hr : r ∈ analyze_code_family stdFn prices family era rows) :
    ∃ p, p ∈ provider_pwi prices rows ∧
    ∃ s, s ∈ specialty_stats stdFn (provider_pwi prices rows) ∧
      s.specialty = p.specialty ∧ r = mkResult family era p s := by
  unfold analyze_code_family at hr
  rcases mem_innerJoin.mp (mem_sortDescBy.mp hr) with ⟨p, hp, s, hs, hk, rfl⟩
  exact ⟨p, hp, s, hs, hk, rfl⟩

theorem mem_fit_and_residualize {stdFn : List ℚ → ℚ} {providers : List ResultRow}
    {residuals : List ℚ} {a : AdjRow}
    (ha : a ∈ fit_and_residualize stdFn providers residuals) :
    ∃ pr, pr ∈ providers.zip residuals ∧
    ∃ st, st ∈ spec_resid_stats stdFn (providers.zip residuals) ∧
      st.specialty = pr.1.specialty ∧ a = mkAdj pr st := by
  unfold fit_and_residualize at ha
  rcases mem_innerJoin.mp ha with ⟨pr, hpr, st, hst, hk, rfl⟩
  exact ⟨pr, hpr, st, hst, hk, rfl⟩

/-- Case analysis of the MOVEMENT when/then chain. -/
theorem movement_cases (raw adj : Bool) :
    (movementOf raw adj = "PERSISTENT" ∨ movementOf raw adj = "EXPLAINED" ∨
      movementOf raw adj = "UNMASKED" ∨ movementOf raw adj = "NORMAL") ∧
    (movementOf raw adj = "PERSISTENT" ↔ raw = true ∧ adj = true) ∧
    (movementOf raw adj = "EXPLAINED" ↔ raw = true ∧ adj = false) ∧
    (movementOf raw adj = "UNMASKED" ↔ raw = false ∧ adj = true) ∧
    (movementOf raw adj = "NORMAL" ↔ raw = false ∧ adj = false) := by
  cases raw <;> cases adj <;> decide

/-- Arithmetic of the convergence counts over the seven signal booleans. -/
theorem signal_count_arith (b1 b2 b3 b4 b5 b6 b7 : Bool) :
    ((if 0 < b2i b1 + b2i b2 then (1 : ℤ) else 0) + (if 0 < b2i b3 then 1 else 0) +
      (if 0 < b2i b4 then 1 else 0) + (if 0 < b2i b5 + b2i b6 then 1 else 0)) ≤ 4 ∧
    ((b1 || b2 || b3 || b4 || b5 || b6 || b7) = true →
      ((if 0 < b2i b1 + b2i b2 then (1 : ℤ) else 0) + (if 0 < b2i b3 then 1 else 0) +
        (if 0 < b2i b4 then 1 else 0) + (if 0 < b2i b5 + b2i b6 then 1 else 0)) ≤
        b2i b1 + b2i b2 + b2i b3 + b2i b4 + b2i b5 + b2i b6 + b2i b7) := by
  cases b1 <;> cases b2 <;> cases b3 <;> cases b4 <;> cases b5 <;> cases b6 <;>
    cases b7 <;> decide

/-! ## Claim theorems -/

/-- C1: for every OutlierRecord produced by the classifier, is_outlier =
true implies both z_score >= Z_THRESHOLD (2.5) and |absolute_deviation| >=
MIN_ABS_DEVIATION (5.0 dollars per encounter). -/
theorem outlier_flag_implies_thresholds
    (stdFn : List ℚ → ℚ) (prices : List (String × ℚ)) (family era : String)
    (rows : List CodeRow) (r : ResultRow)
    (hr : r ∈ analyze_code_family stdFn prices family era rows)
    (hout : r.isOutlier = true) :
    Z_THRESHOLD ≤ r.zScore ∧ MIN_ABS_DEV ≤ |r.absDeviation| := by
  rcases mem_analyze hr with ⟨p, hp, s, hs, hk, rfl⟩
  simp only [mkResult, Bool.and_eq_true, decide_eq_true_eq] at hout
  refine ⟨by simpa [mkResult] using hout.1, ?_⟩
  have hdev : MIN_ABS_DEV ≤ (mkResult family era p s).absDeviation := hout.2
  have h0 : (0 : ℚ) ≤ (mkResult family era p s).absDeviation :=
    le_trans (by norm_num [MIN_ABS_DEV]) hdev
  rw [abs_of_nonneg h0]
  exact hdev

/-- C4: for every OutlierRecord, if the cohort standard deviation is zero
then z_score = 0 (the z-score computation is guarded and total). -/
theorem zero_std_zero_z
    (stdFn : List ℚ → ℚ) (prices : List (String × ℚ)) (family era : String)
    (rows : List CodeRow) (r : ResultRow)
    (hr : r ∈ analyze_code_family stdFn prices family era rows)
    (hstd : r.stdPwi = 0) : r.zScore = 0 := by
  rcases mem_analyze hr with ⟨p, hp, s, hs, hk, rfl⟩
  have hs0 : s.stdPwi = 0 := hstd
  simp [mkResult, hs0]

/-- C10: every record with is_outlier = true has strictly positive
estimated excess revenue, so the floor-clip never alters a flagged
provider's excess, and a downcoder (negative deviation) is never flagged. -/
theorem outlier_positive_excess
    (stdFn : List ℚ → ℚ) (prices : List (String × ℚ)) (family era : String)
    (rows : List CodeRow) (r : ResultRow)
    (hr : r ∈ analyze_code_family stdFn prices family era rows)
    (hout : r.isOutlier = true) :
    0 < r.absDeviation ∧ 0 < r.estExcessRevenue ∧
      r.estExcessRevenueClipped = r.estExcessRevenue := by
  rcases mem_analyze hr with ⟨p, hp, s, hs, hk, rfl⟩
  have hclaims : MIN_CLAIMS ≤ p.totalEmClaims := provider_pwi_min_claims hp
  simp only [mkResult, Bool.and_eq_true, decide_eq_true_eq] at hout
  have hdev0 : 0 < p.pwi - s.medianPwi :=
    lt_of_lt_of_le (by norm_num [MIN_ABS_DEV]) hout.2
  have hcl0 : 0 < p.totalEmClaims :=
    lt_of_lt_of_le (by norm_num [MIN_CLAIMS]) hclaims
  have hexc : 0 < (p.pwi - s.medianPwi) * p.totalEmClaims := mul_pos hdev0 hcl0
  refine ⟨hdev0, hexc, ?_⟩
  show max ((p.pwi - s.medianPwi) * p.totalEmClaims) 0
      = (p.pwi - s.medianPwi) * p.totalEmClaims
  exact max_eq_left (le_of_lt hexc)

/-- C3: every peer cohort for which a benchmark is computed has at least
MIN_PEERS (20) members and its reported peer count is the true cohort
size; a smaller cohort gets no benchmark row at all; every downstream
outlier record belongs to a cohort of at least MIN_PEERS members; and the
adjusted stage's residual benchmarks obey the same floor. -/
theorem benchmark_min_peers
    (stdFn : List ℚ → ℚ) (prices : List (String × ℚ)) (family era : String)
    (rows : List CodeRow) (dfr : List (ResultRow × ℚ)) :
    (∀ s ∈ specialty_stats stdFn (provider_pwi prices rows),
      MIN_PEERS ≤ s.peerCount ∧
      s.peerCount = ((provider_pwi prices rows).filter
        (fun p => decide (p.specialty = s.specialty))).length) ∧
    (∀ spec : String,
      ((provider_pwi prices rows).filter
        (fun p => decide (p.specialty = spec))).length < MIN_PEERS →
      ∀ s ∈ specialty_stats stdFn (provider_pwi prices rows), s.specialty ≠ spec) ∧
    (∀ r ∈ analyze_code_family stdFn prices family era rows,
      MIN_PEERS ≤ ((provider_pwi prices rows).filter
        (fun p => decide (p.specialty = r.specialty))).length) ∧
    (∀ st ∈ spec_resid_stats stdFn dfr,
      MIN_PEERS ≤ st.n ∧
      st.n = (dfr.filter (fun x => decide (x.1.specialty = st.specialty))).length) := by
  refine ⟨?_, ?_, ?_, ?_⟩
  · intro s hs
    exact ⟨(specialty_stats_char hs).1, (specialty_stats_char hs).2.2.2.2⟩
  · intro spec hsmall s hs hspec
    have h1 := (specialty_stats_char hs).1
    have h2 := (specialty_stats_char hs).2.2.2.2
    rw [hspec] at h2
    omega
  · intro r hr
    rcases mem_analyze hr with ⟨p, hp, s, hs, hk, rfl⟩
    have h1 := (specialty_stats_char hs).1
    have h2 := (specialty_stats_char hs).2.2.2.2
    show MIN_PEERS ≤ ((provider_pwi prices rows).filter
      (fun q => decide (q.specialty = p.specialty))).length
    rw [← hk, ← h2]
    exact h1
  · intro st hst
    exact ⟨(spec_resid_stats_char hst).1, (spec_resid_stats_char hst).2.2.2⟩

/-- C2: for every AdjustedOutlierRecord the movement category is exactly
one of PERSISTENT, EXPLAINED, UNMASKED, NORMAL, characterised by the 2x2
crossing of the raw and adjusted flags; in particular it is PERSISTENT
iff both flags are true. -/
theorem movement_total_exclusive
    (stdFn : List ℚ → ℚ) (providers : List ResultRow) (residuals : List ℚ) :
    ∀ a ∈ fit_and_residualize stdFn providers residuals,
      (a.movement = "PERSISTENT" ∨ a.movement = "EXPLAINED" ∨
        a.movement = "UNMASKED" ∨ a.movement = "NORMAL") ∧
      (a.movement = "PERSISTENT" ↔ a.base.isOutlier = true ∧ a.adjIsOutlier = true) ∧
      (a.movement = "EXPLAINED" ↔ a.base.isOutlier = true ∧ a.adjIsOutlier = false) ∧
      (a.movement = "UNMASKED" ↔ a.base.isOutlier = false ∧ a.adjIsOutlier = true) ∧
      (a.movement = "NORMAL" ↔ a.base.isOutlier = false ∧ a.adjIsOutlier = false) := by
  intro a ha
  rcases mem_fit_and_residualize ha with ⟨pr, hpr, st, hst, hk, rfl⟩
  exact movement_cases pr.1.isOutlier
    (decide (Z_THRESHOLD ≤
      (if 0 < st.residStd then (pr.2 - st.residMedian) / st.residStd else 0)))

/-- C5: in the adjusted stage the residuals are re-benchmarked within the
specialty cohort (median and stdFn of the cohort residuals, with the
MIN_PEERS floor), ADJ_Z_SCORE uses the same std = 0 guard, and
ADJ_IS_OUTLIER holds iff ADJ_Z_SCORE >= Z_THRESHOLD with no
absolute-deviation gate. -/
theorem adjusted_rebenchmark_iff
    (stdFn : List ℚ → ℚ) (providers : List ResultRow) (residuals : List ℚ) :
    ∀ a ∈ fit_and_residualize stdFn providers residuals,
      (a.adjIsOutlier = true ↔ Z_THRESHOLD ≤ a.adjZScore) ∧
      ∃ st, st ∈ spec_resid_stats stdFn (providers.zip residuals) ∧
        st.specialty = a.base.specialty ∧
        MIN_PEERS ≤ st.n ∧
        st.residMedian = medianQ (((providers.zip residuals).filter
          (fun x => decide (x.1.specialty = a.base.specialty))).map (fun x => x.2)) ∧
        st.residStd = stdFn (((providers.zip residuals).filter
          (fun x => decide (x.1.specialty = a.base.specialty))).map (fun x => x.2)) ∧
        st.n = ((providers.zip residuals).filter
          (fun x => decide (x.1.specialty = a.base.specialty))).length ∧
        a.adjZScore =
          (if 0 < st.residStd then (a.adjResidual - st.residMedian) / st.residStd
            else 0) := by
  intro a ha
  rcases mem_fit_and_residualize ha with ⟨pr, hpr, st, hst, hk, rfl⟩
  have hc := spec_resid_stats_char hst
  rw [hk] at hc
  refine ⟨by simp [mkAdj], st, hst, hk, hc.1, hc.2.1, hc.2.2.1, hc.2.2.2, rfl⟩

/-- C7: for every ConvergenceRecord, signal_type_count is at most the
number of defined categories (4), and total_signal_count is at least
signal_type_count for every provider with at least one signal. -/
theorem signal_counts_bounds (s : SignalSets) (base : List ConvBase) :
    ∀ c ∈ convergence s base,
      c.signalTypeCount ≤ 4 ∧
      (anySignal c = true → c.signalTypeCount ≤ c.totalSignalCount) := by
  intro c hc
  rcases List.mem_map.mp (mem_sortDescBy.mp hc) with ⟨r, hr, rfl⟩
  exact signal_count_arith
    (decide (r.npi ∈ s.specialtyOutliers)) (decide (r.npi ∈ s.temporalSpikes))
    (decide (r.npi ∈ s.ghostImpossible)) (decide (r.npi ∈ s.oigMatches))
    (decide (r.npi ∈ s.temporalDisappear)) (decide (r.npi ∈ s.temporalFastStart))
    (decide (r.npi ∈ s.crossEra))

/-- C8 (amended): the convergence output is ranked by total_signal_count
descending only, and is a permutation of the computed signal table; the
source applies no category tie-break. -/
theorem ranking_total_desc (s : SignalSets) (base : List ConvBase) :
    List.Sorted (fun a b => b.totalSignalCount ≤ a.totalSignalCount)
      (convergence s base) ∧
    List.Perm (convergence s base) (base.map (mkConv s)) :=
  ⟨sorted_sortDescBy _ _, sortDescBy_perm _ _⟩

/-! ## Counting lemmas for the cross-era reconciler -/

theorem bool_eq_of_iff {a b : Bool} (h : a = true ↔ b = true) : a = b := by
  cases a <;> cases b <;> simp_all

theorem nodup_all_eq_length_le_one {α : Type} :
    ∀ {l : List α}, l.Nodup → (∀ x ∈ l, ∀ y ∈ l, x = y) → l.length ≤ 1
  | [], _, _ => by simp
  | [x], _, _ => by simp
  | x :: y :: t, hn, h => by
    exfalso
    have hxy : x = y := h x (by simp) y (by simp)
    rw [List.nodup_cons] at hn
    exact hn.1 (hxy ▸ List.mem_cons_self y t)

theorem length_filter_le_one {α : Type} {l : List α} {p : α → Bool}
    (hn : l.Nodup) (h : ∀ x ∈ l, ∀ y ∈ l, p x = true → p y = true → x = y) :
    (l.filter p).length ≤ 1 := by
  apply nodup_all_eq_length_le_one (hn.filter p)
  intro x hx y hy
  rcases List.mem_filter.mp hx with ⟨hxl, hpx⟩
  rcases List.mem_filter.mp hy with ⟨hyl, hpy⟩
  exact h x hxl y hyl hpx hpy

theorem length_filter_eq_ite {α : Type} {l : List α} {p : α → Bool}
    (hn : l.Nodup) (h : ∀ x ∈ l, ∀ y ∈ l, p x = true → p y = true → x = y) :
    (l.filter p).length = if l.any p then 1 else 0 := by
  by_cases ha : l.any p = true
  · rw [if_pos ha]
    rcases List.any_eq_true.mp ha with ⟨x, hx, hpx⟩
    have hle := length_filter_le_one hn h
    have hmem : x ∈ l.filter p := List.mem_filter.mpr ⟨hx, hpx⟩
    have hpos : 0 < (l.filter p).length := List.length_pos.mpr (List.ne_nil_of_mem hmem)
    omega
  · rw [if_neg ha]
    have hnil : l.filter p = [] := by
      apply List.eq_nil_iff_forall_not_mem.mpr
      intro x hx
      rcases List.mem_filter.mp hx with ⟨hxl, hpx⟩
      exact ha (List.any_eq_true.mpr ⟨x, hxl, hpx⟩)
    simp [hnil]

/-- Under registry consistency, each NPI yields at most one era_agg group,
present exactly when the NPI has an outlier row in the era. -/
theorem countKey_era_agg (df : List ResultRow) (h : AttrConsistent df) (n : String) :
    ((era_agg df).filter (fun a => decide (a.npi = n))).length
      = if (df.filter (fun r => r.isOutlier)).any (fun r => decide (r.npi = n))
        then 1 else 0 := by
  have hkeyuniq : ∀ x ∈ ((df.filter (fun r => r.isOutlier)).map eraKeyOf).dedup,
      ∀ y ∈ ((df.filter (fun r => r.isOutlier)).map eraKeyOf).dedup,
      decide (x.1 = n) = true → decide (y.1 = n) = true → x = y := by
    intro x hx y hy hxn hyn
    rcases mem_keys_iff.mp hx with ⟨rx, hrx, rfl⟩
    rcases mem_keys_iff.mp hy with ⟨ry, hry, rfl⟩
    have hrx2 : rx ∈ df := (List.mem_filter.mp hrx).1
    have hry2 : ry ∈ df := (List.mem_filter.mp hry).1
    have h1 : rx.npi = n := of_decide_eq_true hxn
    have h2 : ry.npi = n := of_decide_eq_true hyn
    have hnpi : rx.npi = ry.npi := by rw [h1, h2]
    rcases h rx hrx2 ry hry2 hnpi with ⟨e1, e2, e3⟩
    unfold eraKeyOf
    rw [hnpi, e1, e2, e3]
  have hany : (((df.filter (fun r => r.isOutlier)).map eraKeyOf).dedup.any
        (fun key => decide (key.1 = n)))
      = ((df.filter (fun r => r.isOutlier)).any (fun r => decide (r.npi = n))) := by
    apply bool_eq_of_iff
    constructor
    · intro hk
      rcases List.any_eq_true.mp hk with ⟨key, hkey, hpk⟩
      rcases mem_keys_iff.mp hkey with ⟨r, hr, rfl⟩
      exact List.any_eq_true.mpr ⟨r, hr, hpk⟩
    · intro hr2
      rcases List.any_eq_true.mp hr2 with ⟨r, hr, hpr⟩
      exact List.any_eq_true.mpr ⟨eraKeyOf r, mem_keys_iff.mpr ⟨r, hr, rfl⟩, hpr⟩
  have hcount := length_filter_eq_ite (List.nodup_dedup _) hkeyuniq
  rw [hany] at hcount
  rw [← List.countP_eq_length_filter]
  unfold era_agg groupBy
  rw [List.countP_map, List.countP_eq_length_filter]
  exact hcount

/-- Row-level characterization of the era_agg metrics. -/
theorem era_agg_char (df : List ResultRow) (h : AttrConsistent df) (a : EraAgg)
    (ha : a ∈ era_agg df) :
    a.z = maxQ (((df.filter (fun r => r.isOutlier)).filter
      (fun r => decide (r.npi = a.npi))).map (fun r => r.zScore)) ∧
    a.excess = (((df.filter (fun r => r.isOutlier)).filter
      (fun r => decide (r.npi = a.npi))).map (fun r => r.estExcessRevenueClipped)).sum ∧
    a.claims = (((df.filter (fun r => r.isOutlier)).filter
      (fun r => decide (r.npi = a.npi))).map (fun r => r.totalEmClaims)).sum := by
  unfold era_agg at ha
  rcases mem_groupBy.mp ha with ⟨key, hkey, ha2⟩
  rcases mem_keys_iff.mp hkey with ⟨y, hy, hky⟩
  have hnpi : a.npi = key.1 := by rw [ha2]
  have hgroup : (df.filter (fun r => r.isOutlier)).filter
        (fun r => decide (r.npi = a.npi))
      = (df.filter (fun r => r.isOutlier)).filter
        (fun r => decide (eraKeyOf r = key)) := by
    apply filterCongr
    intro x hx
    apply decide_eq_decide.mpr
    constructor
    · intro hxn
      have hxy : x.npi = y.npi := by
        rw [hxn, hnpi, ← hky]
        rfl
      have hx2 : x ∈ df := (List.mem_filter.mp hx).1
      have hy2 : y ∈ df := (List.mem_filter.mp hy).1
      rcases h x hx2 y hy2 hxy with ⟨e1, e2, e3⟩
      rw [← hky]
      unfold eraKeyOf
      rw [hxy, e1, e2, e3]
    · intro he
      rw [hnpi, ← he]
      rfl
  rw [hgroup, ha2]
  exact ⟨rfl, rfl, rfl⟩

/-- The NPI count through the cross-era inner join is the product of the
per-side NPI counts. -/
theorem countKey_innerJoin_cross (l r : List EraAgg) (n : String) :
    ((innerJoin (fun a => a.npi) (fun b => b.npi) mkCross l r).filter
      (fun c => decide (c.npi = n))).length
      = (l.filter (fun a => decide (a.npi = n))).length *
        (r.filter (fun b => decide (b.npi = n))).length := by
  induction l with
  | nil => simp [innerJoin]
  | cons a t ih =>
    have hstep : innerJoin (fun x => x.npi) (fun b => b.npi) mkCross (a :: t) r
        = ((r.filter (fun b => decide (b.npi = a.npi))).map (mkCross a)) ++
          innerJoin (fun x => x.npi) (fun b => b.npi) mkCross t r := rfl
    rw [hstep, List.filter_append, List.length_append, ih]
    by_cases hn : a.npi = n
    · simp only [hn]
      have hall : ∀ c ∈ (r.filter (fun b => decide (b.npi = n))).map (mkCross a),
          decide (c.npi = n) = true := by
        intro c hcm
        rcases List.mem_map.mp hcm with ⟨b, hbm, rfl⟩
        have hb : b.npi = n := of_decide_eq_true (List.mem_filter.mp hbm).2
        show decide (a.npi = n) = true
        exact decide_eq_true hn
      rw [List.filter_eq_self.mpr hall, List.length_map]
      have hleft : ((a :: t).filter (fun x => decide (x.npi = n))).length
          = (t.filter (fun x => decide (x.npi = n))).length + 1 := by
        rw [List.filter_cons_of_pos]
        · rfl
        · exact decide_eq_true hn
      rw [hleft]
      ring
    · have hnone : ((r.filter (fun b => decide (b.npi = a.npi))).map (mkCross a)).filter
            (fun c => decide (c.npi = n)) = [] := by
        apply List.eq_nil_iff_forall_not_mem.mpr
        intro c hcm
        rcases List.mem_filter.mp hcm with ⟨hcm2, hcn⟩
        rcases List.mem_map.mp hcm2 with ⟨b, hbm, rfl⟩
        exact hn (of_decide_eq_true hcn)
      rw [hnone]
      have hleft : ((a :: t).filter (fun x => decide (x.npi = n)))
          = (t.filter (fun x => decide (x.npi = n))) := by
        rw [List.filter_cons_of_neg]
        simp [hn]
      rw [hleft]
      simp

/-- C6: the cross-era summary holds exactly the NPIs outlier-flagged in
both eras, each exactly once, with each era's metrics aggregated over
that era's outlier rows of the NPI by max z-score and summed clipped
excess — assuming the provider registry attributes are consistent per
NPI within each era table. -/
theorem cross_era_exact_once (pre post : List ResultRow)
    (hpre : AttrConsistent pre) (hpost : AttrConsistent post) :
    (∀ n : String,
      ((cross_era_summary pre post).filter (fun c => decide (c.npi = n))).length
        = if ((pre.filter (fun r => r.isOutlier)).any (fun r => decide (r.npi = n)) = true)
            ∧ ((post.filter (fun r => r.isOutlier)).any (fun r => decide (r.npi = n)) = true)
          then 1 else 0) ∧
    (∀ c ∈ cross_era_summary pre post,
      c.preZ = maxQ (((pre.filter (fun r => r.isOutlier)).filter
        (fun r => decide (r.npi = c.npi))).map (fun r => r.zScore)) ∧
      c.preExcess = (((pre.filter (fun r => r.isOutlier)).filter
        (fun r => decide (r.npi = c.npi))).map (fun r => r.estExcessRevenueClipped)).sum ∧
      c.postZ = maxQ (((post.filter (fun r => r.isOutlier)).filter
        (fun r => decide (r.npi = c.npi))).map (fun r => r.zScore)) ∧
      c.postExcess = (((post.filter (fun r => r.isOutlier)).filter
        (fun r => decide (r.npi = c.npi))).map (fun r => r.estExcessRevenueClipped)).sum) := by
  constructor
  · intro n
    have hperm : List.Perm
        ((cross_era_summary pre post).filter (fun c => decide (c.npi = n)))
        ((innerJoin (fun a => a.npi) (fun b => b.npi) mkCross
          (era_agg pre) (era_agg post)).filter (fun c => decide (c.npi = n))) :=
      (sortDescBy_perm _ _).filter _
    rw [hperm.length_eq, countKey_innerJoin_cross,
      countKey_era_agg pre hpre n, countKey_era_agg post hpost n]
    by_cases h1 : (pre.filter (fun r => r.isOutlier)).any (fun r => decide (r.npi = n)) = true
    · by_cases h2 : (post.filter (fun r => r.isOutlier)).any
          (fun r => decide (r.npi = n)) = true
      · simp [h1, h2]
      · simp [h1, h2]
    · simp [h1]
  · intro c hc
    rcases mem_innerJoin.mp (mem_sortDescBy.mp hc) with ⟨a, ha, b, hb, hk, rfl⟩
    have hca := era_agg_char pre hpre a ha
    have hcb := era_agg_char post hpost b hb
    refine ⟨hca.1, hca.2.1, ?_, ?_⟩
    · show b.z = maxQ (((post.filter (fun r => r.isOutlier)).filter
        (fun r => decide (r.npi = a.npi))).map (fun r => r.zScore))
      rw [hcb.1]
      simp only [hk]
    · show b.excess = (((post.filter (fun r => r.isOutlier)).filter
        (fun r => decide (r.npi = a.npi))).map (fun r => r.estExcessRevenueClipped)).sum
      rw [hcb.2.1]
      simp only [hk]

/-- C9 (amended): the covariate-adjustment stage mitigates instability by
a fixed ridge constant in the external fit but performs no finiteness
assertion — every zipped row whose specialty cohort meets the MIN_PEERS
floor is written through with its residual exactly as produced by the
regression, finite or not. -/
theorem residuals_written_unchecked
    (stdFn : List ℚ → ℚ) (providers : List ResultRow) (residuals : List (Option ℚ))
    (pr : ResultRow × Option ℚ) (hpr : pr ∈ providers.zip residuals)
    (hcohort : MIN_PEERS ≤ ((providers.zip residuals).filter
      (fun x => decide (x.1.specialty = pr.1.specialty))).length) :
    ∃ a ∈ fit_and_residualize_float stdFn providers residuals,
      a.base = pr.1 ∧ a.adjResidual = pr.2 := by
  have hkeymem : pr.1.specialty ∈
      ((providers.zip residuals).map (fun x => x.1.specialty)).dedup :=
    mem_keys_iff.mpr ⟨pr, hpr, rfl⟩
  have hst : ({ specialty := pr.1.specialty,
                residMedian := medianO (((providers.zip residuals).filter
                  (fun x => decide (x.1.specialty = pr.1.specialty))).map
                    (fun x => x.2)),
                residStd := stdO stdFn (((providers.zip residuals).filter
                  (fun x => decide (x.1.specialty = pr.1.specialty))).map
                    (fun x => x.2)),
                n := ((providers.zip residuals).filter
                  (fun x => decide (x.1.specialty = pr.1.specialty))).length } :
      FResidStats)
      ∈ fspec_resid_stats stdFn (providers.zip residuals) := by
    unfold fspec_resid_stats
    apply List.mem_filter.mpr
    exact ⟨mem_groupBy.mpr ⟨pr.1.specialty, hkeymem, rfl⟩, decide_eq_true hcohort⟩
  exact ⟨fmkAdj pr _, innerJoin_mem_of hpr hst rfl, rfl, rfl⟩

/- The remaining theorems evaluate the pipeline on the concrete inputs
inside the kernel; the rational arithmetic primitives are irreducible by
default and are reopened for that evaluation. -/
unseal Rat.add Rat.mul Rat.sub Rat.inv

/-- C9 (counterexample): at a concrete input whose regression produces a
non-finite residual, the adjusted stage still emits the row — the claim
that every written residual is asserted finite is false. -/
theorem residual_finiteness_counterexample :
    ¬ (∀ a ∈ fit_and_residualize_float std1 cProviders cFResiduals,
        a.adjResidual.isSome = true) := by decide

/-- C8 (counterexample): on a concrete input with one temporal-signal
provider listed before one regulatory-signal provider, the convergence
output violates the claimed category tie-break, and swapping the input
order changes the output order of the tied providers. -/
theorem ranking_tiebreak_counterexample :
    ¬ rankedWithCategoryTieBreak (convergence cSignals cConvInput) ∧
    convergence cSignals cConvInput ≠
      convergence cSignals [mkConvBase "R", mkConvBase "T"] :=
  ⟨by decide, by decide⟩

/-! ## Witnesses -/

/-- C1 witness: the concrete flagged provider Q satisfies both thresholds. -/
theorem outlier_flag_implies_thresholds_witness :
    cOutlier ∈ cResult ∧ cOutlier.isOutlier = true ∧
      (Z_THRESHOLD ≤ cOutlier.zScore ∧ MIN_ABS_DEV ≤ |cOutlier.absDeviation|) :=
  ⟨by decide, by decide,
    outlier_flag_implies_thresholds std1 cPrices "est" "post2021" cRows cOutlier
      (by decide) (by decide)⟩

/-- C4 witness: with the degenerate dispersion every concrete record has
std 0 and z-score 0. -/
theorem zero_std_zero_z_witness :
    cZeroRow ∈ cResultZ ∧ cZeroRow.stdPwi = 0 ∧ cZeroRow.zScore = 0 :=
  ⟨by decide, by decide,
    zero_std_zero_z std0 cPrices "est" "post2021" cRows cZeroRow
      (by decide) (by decide)⟩

/-- C10 witness: the concrete flagged provider Q has positive excess and
an unchanged clip. -/
theorem outlier_positive_excess_witness :
    cOutlier ∈ cResult ∧ cOutlier.isOutlier = true ∧
      (0 < cOutlier.absDeviation ∧ 0 < cOutlier.estExcessRevenue ∧
        cOutlier.estExcessRevenueClipped = cOutlier.estExcessRevenue) :=
  ⟨by decide, by decide,
    outlier_positive_excess std1 cPrices "est" "post2021" cRows cOutlier
      (by decide) (by decide)⟩

/-- C3 witness: the concrete benchmark cohort reports its true size of 20. -/
theorem benchmark_min_peers_witness :
    cStats ∈ specialty_stats std1 (provider_pwi cPrices cRows) ∧
      (MIN_PEERS ≤ cStats.peerCount ∧
        cStats.peerCount = ((provider_pwi cPrices cRows).filter
          (fun p => decide (p.specialty = cStats.specialty))).length) :=
  ⟨by decide,
    (benchmark_min_peers std1 cPrices "est" "post2021" cRows []).1 cStats (by decide)⟩

/-- C2 witness: the concrete PERSISTENT row instantiates the 2x2
classification. -/
theorem movement_total_exclusive_witness :
    cPersistent ∈ cAdjusted ∧
      ((cPersistent.movement = "PERSISTENT" ∨ cPersistent.movement = "EXPLAINED" ∨
        cPersistent.movement = "UNMASKED" ∨ cPersistent.movement = "NORMAL") ∧
      (cPersistent.movement = "PERSISTENT" ↔
        cPersistent.base.isOutlier = true ∧ cPersistent.adjIsOutlier = true) ∧
      (cPersistent.movement = "EXPLAINED" ↔
        cPersistent.base.isOutlier = true ∧ cPersistent.adjIsOutlier = false) ∧
      (cPersistent.movement = "UNMASKED" ↔
        cPersistent.base.isOutlier = false ∧ cPersistent.adjIsOutlier = true) ∧
      (cPersistent.movement = "NORMAL" ↔
        cPersistent.base.isOutlier = false ∧ cPersistent.adjIsOutlier = false)) :=
  ⟨by decide,
    movement_total_exclusive std1 cProviders cResiduals cPersistent (by decide)⟩

/-- C5 witness: the concrete adjusted row is re-benchmarked within its
cohort under the stated guard and threshold. -/
theorem adjusted_rebenchmark_iff_witness :
    cPersistent ∈ cAdjusted ∧
      ((cPersistent.adjIsOutlier = true ↔ Z_THRESHOLD ≤ cPersistent.adjZScore) ∧
      ∃ st, st ∈ spec_resid_stats std1 (cProviders.zip cResiduals) ∧
        st.specialty = cPersistent.base.specialty ∧
        MIN_PEERS ≤ st.n ∧
        st.residMedian = medianQ (((cProviders.zip cResiduals).filter
          (fun x => decide (x.1.specialty = cPersistent.base.specialty))).map
            (fun x => x.2)) ∧
        st.residStd = std1 (((cProviders.zip cResiduals).filter
          (fun x => decide (x.1.specialty = cPersistent.base.specialty))).map
            (fun x => x.2)) ∧
        st.n = ((cProviders.zip cResiduals).filter
          (fun x => decide (x.1.specialty = cPersistent.base.specialty))).length ∧
        cPersistent.adjZScore =
          (if 0 < st.residStd then
            (cPersistent.adjResidual - st.residMedian) / st.residStd
          else 0)) :=
  ⟨by decide,
    adjusted_rebenchmark_iff std1 cProviders cResiduals cPersistent (by decide)⟩

/-- C6 witness: provider X, flagged in both concrete eras, appears in the
summary exactly once. -/
theorem cross_era_exact_once_witness :
    AttrConsistent cPre ∧ AttrConsistent cPost ∧
      ((cross_era_summary cPre cPost).filter (fun c => decide (c.npi = "X"))).length
        = if ((cPre.filter (fun r => r.isOutlier)).any
              (fun r => decide (r.npi = "X")) = true)
            ∧ ((cPost.filter (fun r => r.isOutlier)).any
              (fun r => decide (r.npi = "X")) = true)
          then 1 else 0 :=
  ⟨by decide, by decide,
    (cross_era_exact_once cPre cPost (by decide) (by decide)).1 "X"⟩

/-- C7 witness: the concrete single-signal provider obeys both count
bounds. -/
theorem signal_counts_bounds_witness :
    cConvRow ∈ convergence cSignals cConvInput ∧ anySignal cConvRow = true ∧
      (cConvRow.signalTypeCount ≤ 4 ∧
        cConvRow.signalTypeCount ≤ cConvRow.totalSignalCount) :=
  ⟨by decide, by decide,
    ⟨(signal_counts_bounds cSignals cConvInput cConvRow (by decide)).1,
      (signal_counts_bounds cSignals cConvInput cConvRow (by decide)).2 (by decide)⟩⟩

/-- C9 witness: the non-finite residual row of NPI BQ is in a qualifying
cohort and is written through unchanged. -/
theorem residuals_written_unchecked_witness :
    ((mkBaseRow "BQ" true, (none : Option ℚ)) ∈ cProviders.zip cFResiduals) ∧
      MIN_PEERS ≤ ((cProviders.zip cFResiduals).filter
        (fun x => decide (x.1.specialty = (mkBaseRow "BQ" true).specialty))).length ∧
      ∃ a ∈ fit_and_residualize_float std1 cProviders cFResiduals,
        a.base = mkBaseRow "BQ" true ∧ a.adjResidual = none :=
  ⟨by decide, by decide,
    residuals_written_unchecked std1 cProviders cFResiduals
      (mkBaseRow "BQ" true, none) (by decide) (by decide)⟩
